import Mathlib

/-!
Verification of the macro-ROC aggregation and reporting pipeline of
`dga_predict` (`run.py`).  The numeric routines are modelled over `ℚ`
(exact rational arithmetic): `interpCore` embeds numpy's `interp`
(one-dimensional linear interpolation with endpoint clamping, as
implemented in numpy's `arr_interp`), `trapz` embeds `np.trapz`, and
`sk_auc` embeds `sklearn.metrics.auc` (trapezoidal rule with a
monotonicity check).  Fallible calls (Python exceptions) are modelled
with `Option`: `none` means the corresponding Python call raises.
-/

namespace DgaPredict

/-- Inner loop of numpy's `arr_interp`: the current knot `(x0, y0)` satisfies
`x0 ≤ x`; advance while the next knot is still at or below `x` (so that for
duplicated knot abscissas the value at the last duplicate wins, exactly as in
numpy's right-leaning binary search), clamp at the right end, return the knot
value on an exact abscissa hit, and otherwise interpolate linearly. -/
def interpGo (x : ℚ) : ℚ × ℚ → List (ℚ × ℚ) → ℚ
  | (_, y0), [] => y0
  | (x0, y0), (x1, y1) :: rest =>
    if x1 ≤ x then interpGo x (x1, y1) rest
    else if x = x0 then y0
    else y0 + (y1 - y0) * (x - x0) / (x1 - x0)

/-- Value of numpy `interp` at a single point `x`, over the knot list `pts`
(pairs of abscissa and ordinate, ascending abscissas assumed as in numpy).
Below the first knot the first ordinate is returned (left clamp). -/
def interpCore (x : ℚ) : List (ℚ × ℚ) → ℚ
  | [] => 0
  | (x0, y0) :: rest => if x < x0 then y0 else interpGo x (x0, y0) rest

/-- Vectorised numpy `interp`: evaluate at every point of `xs` over knots
`xp`/`fp` (run.py line 101 calls `interp(all_fpr, fpr[i], tpr[i])`). -/
def interpList (xs xp fp : List ℚ) : List ℚ :=
  xs.map (fun x => interpCore x (xp.zip fp))

/-- numpy `interp` including its argument checks: it raises `ValueError` when
`fp` and `xp` differ in length or when the sample-point array is empty
(modelled as `none`). -/
def npInterp (xs xp fp : List ℚ) : Option (List ℚ) :=
  if xp.length = fp.length ∧ xp ≠ [] then some (interpList xs xp fp) else none

/-- Model of `np.trapz y x`: composite trapezoidal rule over the sample points. -/
def trapz : List ℚ → List ℚ → ℚ
  | x0 :: x1 :: xs, y0 :: y1 :: ys =>
    (x1 - x0) * (y0 + y1) / 2 + trapz (x1 :: xs) (y1 :: ys)
  | _, _ => 0

/-- Model of `sklearn.metrics.auc x y`: raises (`none`) when fewer than two points are
given, when the lengths differ, or when `x` is neither non-decreasing nor
non-increasing; otherwise the (direction-corrected) trapezoidal area. -/
def sk_auc (xs ys : List ℚ) : Option ℚ :=
  if xs.length < 2 ∨ xs.length ≠ ys.length then none
  else if List.Chain' (fun a b => a ≤ b) xs then some (trapz xs ys)
  else if List.Chain' (fun a b => b ≤ a) xs then some (-trapz xs ys)
  else none

/-- The accumulation loop of `calc_macro_roc` (run.py lines 99-101):
`mean_tpr = np.zeros_like(all_fpr)` followed by
`mean_tpr += interp(all_fpr, fpr[i], tpr[i])` for `i in range(len(tpr))`.
Python indexes `fpr[i]` for `i < len(tpr)`, so a shorter `fpr` raises
`IndexError` (`none`); surplus entries of `fpr` are ignored by the loop. -/
def sumInterp (xs : List ℚ) : List (List ℚ) → List (List ℚ) → Option (List ℚ)
  | _, [] => some (xs.map fun _ => (0 : ℚ))
  | [], _ :: _ => none
  | xp :: fprs, fp :: tprs =>
    match npInterp xs xp fp, sumInterp xs fprs tprs with
    | some cur, some rest => some (List.zipWith (fun a b => a + b) cur rest)
    | _, _ => none

/-- Model of `calc_macro_roc(fpr, tpr)` (run.py lines 93-103): the shared domain is
`sorted(itertools.chain(*fpr))` (duplicates retained), the interpolated TPR
vectors are summed, and the function returns the domain, the sum divided by
the fold count, and `auc(all_fpr, mean_tpr) / len(tpr)`.  `none` models a
raised Python exception.  (The NaN-producing corner `len(tpr) = 0` with a
non-empty domain is outside ℚ; there division by zero yields `0` instead of
NaN.) -/
def calc_macro_roc (fpr tpr : List (List ℚ)) : Option (List ℚ × List ℚ × ℚ) :=
  let all_fpr := List.insertionSort (fun a b => a ≤ b) fpr.flatten
  match sumInterp all_fpr fpr tpr with
  | none => none
  | some mean_tpr =>
    match sk_auc all_fpr mean_tpr with
    | none => none
    | some a =>
      some (all_fpr, mean_tpr.map (fun t => t / (tpr.length : ℚ)),
        a / (tpr.length : ℚ))

/-! ## Data model (spec section 3) and the reporting stages of `create_figs` -/

/-- One fold's record as produced by a model's `run` (spec section 3): the
dict keys used by run.py are `indata_test` (pairs of integer label and domain
string), `y` (ground truth) and `probs` (predicted probabilities).  The data
model invariant says the three sequences are index-aligned. -/
structure FoldResult where
  indata_test : List (ℤ × String)
  y : List ℤ
  probs : List ℚ
deriving DecidableEq

/-- The `results` dict of `create_figs`: one entry per model name, `none`
modelling Python's `None` for a disabled model. -/
structure CombinedResults where
  bigram : Option (List FoldResult)
  lstm : Option (List FoldResult)
deriving DecidableEq

/-- One row of a per-fold CSV dump (run.py lines 111-120). -/
structure CsvRow where
  domain : String
  real_label : ℤ
  prob : ℚ
  real_y : ℤ
deriving DecidableEq

/-- One CSV output file: its name and its rows (run.py lines 110-120). -/
structure CsvFile where
  name : String
  rows : List CsvRow
deriving DecidableEq

/-- Rows of one fold's CSV file (run.py lines 113-120): one row per test
sample, in sequence order.  The Fold Result invariant (spec section 3)
guarantees index alignment, so out-of-range access is not modelled. -/
def foldRows (fold : FoldResult) : List CsvRow :=
  (List.range fold.indata_test.length).map fun i =>
    { domain := (fold.indata_test.getD i (0, "")).2
      real_label := (fold.indata_test.getD i (0, "")).1
      prob := fold.probs.getD i 0
      real_y := fold.y.getD i 0 }

/-- CSV files of one model result set, numbered from `k` with names
`{model}-{fold}-resultset.csv` (braces denote Python string formatting). -/
def modelCsvFiles (model : String) : Nat → List FoldResult → List CsvFile
  | _, [] => []
  | k, fold :: folds =>
    { name := model ++ "-" ++ toString k ++ "-resultset.csv",
      rows := foldRows fold } :: modelCsvFiles model (k + 1) folds

/-- Model of `write_results_to_csv` (run.py lines 106-121).  The result is the list of
files written, in order, together with a completion flag: for an absent model
the loop evaluates `len(None)`, which raises `TypeError`, so iteration stops
with no file written for that model or any later one (flag `false`). -/
def write_results_to_csv : List (String × Option (List FoldResult)) →
    List CsvFile × Bool
  | [] => ([], true)
  | (_, none) :: _ => ([], false)
  | (model, some folds) :: rest =>
    let (tail, ok) := write_results_to_csv rest
    (modelCsvFiles model 0 folds ++ tail, ok)

/-- Python truthiness of `results[model]`: `None` and the empty list are
falsy, a non-empty fold list is truthy (run.py lines 54 and 65). -/
def truthy (o : Option (List FoldResult)) : Bool :=
  match o with
  | none => false
  | some l => !l.isEmpty

/-- The per-model guarded block of `create_figs` (run.py lines 54-62 and
65-73): when `results[model]` is truthy, each fold's ROC curve is taken (the
external `sklearn.roc_curve`, passed here as the parameter `roc`) and
`calc_macro_roc` is applied.  Outer `none`: an exception escaped the block.
Inner `none`: the guard was falsy, so the block was skipped and the
`*_binary_*` variables were left unbound. -/
def guardedRocBlock (roc : FoldResult → List ℚ × List ℚ)
    (o : Option (List FoldResult)) :
    Option (Option (List ℚ × List ℚ × ℚ)) :=
  if truthy o then
    match calc_macro_roc ((o.getD []).map fun f => (roc f).1)
        ((o.getD []).map fun f => (roc f).2) with
    | none => none
    | some c => some (some c)
  else some none

/-- A rendered figure: the plotted curves in plot order, each carrying its
legend label and `(fpr, tpr, auc)` data (axis styling elided). -/
def Figure := List (String × (List ℚ × List ℚ × ℚ))
deriving instance DecidableEq for Figure

/-- The figure-producing tail of `create_figs` (run.py lines 53-90): both
guarded macro-ROC blocks run in order, then `plt.plot` references
`lstm_binary_*` and `bigram_binary_*` unconditionally, so if either guard was
falsy the plot raises `NameError` (`none`). -/
def create_figs_report (roc : FoldResult → List ℚ × List ℚ)
    (bigram_results lstm_results : Option (List FoldResult)) : Option Figure :=
  match guardedRocBlock roc bigram_results with
  | none => none
  | some bc =>
    match guardedRocBlock roc lstm_results with
    | none => none
    | some lc =>
      match bc, lc with
      | some (bf, bt, ba), some (lf, lt, la) =>
        some [("LSTM", (lf, lt, la)), ("Bigrams", (bf, bt, ba))]
      | _, _ => none

/-! ## Result cache (spec sections 4.1 and 6)

Modelled from the spec: the pickle serialization used by
`pickle.dump(results, open(RESULT_FILE, 'w'))` and
`pickle.load(open(RESULT_FILE))` is Python-library code that is not part of
this repository's sources; spec section 6 requires a "binary serialized form
of Combined Results" that "must round-trip exactly through store/load".  The
artifact is modelled as a flat integer stream with length-prefixed
collections, and `load` reads back one object. -/

def encInt (z : ℤ) : List ℤ := [z]

def encNat (n : Nat) : List ℤ := [(n : ℤ)]

def encRat (q : ℚ) : List ℤ := [q.num, (q.den : ℤ)]

def encList (enc : α → List ℤ) (l : List α) : List ℤ :=
  (l.length : ℤ) :: (l.map enc).flatten

def encString (s : String) : List ℤ :=
  encList (fun c => [(c.toNat : ℤ)]) s.data

def encFold (f : FoldResult) : List ℤ :=
  encList (fun p => encInt p.1 ++ encString p.2) f.indata_test ++
    encList encInt f.y ++ encList encRat f.probs

def encOpt (enc : α → List ℤ) : Option α → List ℤ
  | none => [0]
  | some a => 1 :: enc a

/-- Operation `store`: serialize a Combined Results value to the cache artifact. -/
def store (r : CombinedResults) : List ℤ :=
  encOpt (encList encFold) r.bigram ++ encOpt (encList encFold) r.lstm

def decInt : List ℤ → Option (ℤ × List ℤ)
  | z :: rest => some (z, rest)
  | [] => none

def decNat (l : List ℤ) : Option (Nat × List ℤ) :=
  match decInt l with
  | some (z, rest) => if 0 ≤ z then some (z.toNat, rest) else none
  | none => none

def decRat : List ℤ → Option (ℚ × List ℤ)
  | n :: d :: rest => some (mkRat n d.toNat, rest)
  | _ => none

def decChar : List ℤ → Option (Char × List ℤ)
  | z :: rest => if 0 ≤ z then some (Char.ofNat z.toNat, rest) else none
  | [] => none

def decListAux (dec : List ℤ → Option (α × List ℤ)) :
    Nat → List ℤ → Option (List α × List ℤ)
  | 0, rest => some ([], rest)
  | n + 1, rest =>
    match dec rest with
    | none => none
    | some (a, r1) =>
      match decListAux dec n r1 with
      | none => none
      | some (as, r2) => some (a :: as, r2)

def decList (dec : List ℤ → Option (α × List ℤ)) (l : List ℤ) :
    Option (List α × List ℤ) :=
  match decNat l with
  | none => none
  | some (n, rest) => decListAux dec n rest

def decString (l : List ℤ) : Option (String × List ℤ) :=
  match decList decChar l with
  | none => none
  | some (cs, rest) => some (String.mk cs, rest)

def decFold (l : List ℤ) : Option (FoldResult × List ℤ) :=
  match decList (fun l0 =>
      match decInt l0 with
      | none => none
      | some (z, l1) =>
        match decString l1 with
        | none => none
        | some (s, l2) => some ((z, s), l2)) l with
  | none => none
  | some (indata, r1) =>
    match decList decInt r1 with
    | none => none
    | some (ys, r2) =>
      match decList decRat r2 with
      | none => none
      | some (ps, r3) => some (⟨indata, ys, ps⟩, r3)

def decOpt (dec : List ℤ → Option (α × List ℤ)) :
    List ℤ → Option (Option α × List ℤ)
  | z :: rest =>
    if z = 0 then some (none, rest)
    else if z = 1 then
      match dec rest with
      | none => none
      | some (a, r) => some (some a, r)
    else none
  | [] => none

/-- Operation `load`: deserialize one Combined Results value from the artifact;
`none` models a deserialization failure on a malformed artifact. -/
def load (l : List ℤ) : Option CombinedResults :=
  match decOpt (decList decFold) l with
  | none => none
  | some (b, r1) =>
    match decOpt (decList decFold) r1 with
    | none => none
    | some (ls, _) => some ⟨b, ls⟩

/-! ## Configuration resolution and the cached pipeline (run.py 38-51, 124) -/

/-- Truthiness of `os.environ.get(NAME, dflt)` as used on run.py lines 38-39:
when the variable is set the value is a string, truthy exactly when
non-empty; otherwise the Python-boolean default `dflt` is used. -/
def envToggle (v : Option String) (dflt : Bool) : Bool :=
  match v with
  | none => dflt
  | some s => !s.isEmpty

/-- The three boolean-like settings of `create_figs`: `BIGRAM` and `LSTM`
default to `True`, `FORCE` defaults to `False` (run.py lines 38-39). -/
def resolveToggles (bigramEnv lstmEnv forceEnv : Option String) :
    Bool × Bool × Bool :=
  (envToggle bigramEnv true, envToggle lstmEnv true, envToggle forceEnv false)

/-- Observable outcome of one `create_figs` invocation: the cache artifact
contents after the run, the CSV files written with their completion flag, and
the figure if the run got that far. -/
structure PipelineOutput where
  cacheFile : List ℤ
  csv : List CsvFile × Bool
  fig : Option Figure
deriving DecidableEq

/-- The stages of `create_figs` after `results` is in hand (run.py lines
51-90): `write_results_to_csv(results)` runs first and its `TypeError` on an
absent model aborts the rest; otherwise the figure stage runs. -/
def pipelineAfterCache (roc : FoldResult → List ℚ × List ℚ)
    (cacheBytes : List ℤ) (results : CombinedResults) : PipelineOutput :=
  let csv := write_results_to_csv
    [("bigram", results.bigram), ("lstm", results.lstm)]
  { cacheFile := cacheBytes
    csv := csv
    fig := if csv.2 then create_figs_report roc results.bigram results.lstm
           else none }

/-- Model of `create_figs` (run.py lines 38-51) over an explicit world: `cacheFile` is
the contents of `RESULT_FILE` if that file exists, `runner` stands for the
external `run_experiments`, and `roc` for `sklearn.roc_curve`.  When `force`
is falsy and the artifact exists, `results` comes from `pickle.load` alone
(`none` models a fatal deserialization error); otherwise the experiments run
and the artifact is overwritten with the pickled results. -/
def create_figs (isbigram islstm : Bool) (nfolds : Nat) (force : Bool)
    (cacheFile : Option (List ℤ))
    (runner : Bool → Bool → Nat → CombinedResults)
    (roc : FoldResult → List ℚ × List ℚ) : Option PipelineOutput :=
  if force || cacheFile.isNone then
    let results := runner isbigram islstm nfolds
    some (pipelineAfterCache roc (store results) results)
  else
    match load (cacheFile.getD []) with
    | none => none
    | some results => some (pipelineAfterCache roc (cacheFile.getD []) results)

/-- A concrete well-formed Fold Result used to exercise the pipeline. -/
def demoFold : FoldResult :=
  { indata_test := [(0, "benign.example"), (1, "zxcvq.biz")]
    y := [0, 1]
    probs := [1 / 10, 9 / 10] }

/-- A concrete stand-in for the external per-fold ROC computation. -/
def demoRoc : FoldResult → List ℚ × List ℚ := fun _ => ([0, 1], [0, 1])

/-! ## Helper lemmas about the aggregator -/

lemma npInterp_some (xs xp fp : List ℚ) (l : List ℚ)
    (h : npInterp xs xp fp = some l) : l = interpList xs xp fp := by
  unfold npInterp at h
  split at h
  · exact (Option.some.injEq ..▸ h).symm
  · exact absurd h (by simp)

lemma sk_auc_of_chain (xs ys : List ℚ) (a : ℚ)
    (hc : List.Chain' (fun x y => x ≤ y) xs) (h : sk_auc xs ys = some a) :
    a = trapz xs ys := by
  unfold sk_auc at h
  by_cases hlen : xs.length < 2 ∨ xs.length ≠ ys.length
  · rw [if_pos hlen] at h
    exact absurd h (by simp)
  · rw [if_neg hlen, if_pos hc] at h
    exact (Option.some.injEq ..▸ h).symm

/-- Inversion of a successful `calc_macro_roc` call: the domain is the sorted
concatenation, and the mean vector and AUC come from the interpolation sum. -/
lemma calc_macro_roc_inv (fpr tpr : List (List ℚ)) (d m : List ℚ) (a : ℚ)
    (h : calc_macro_roc fpr tpr = some (d, m, a)) :
    d = List.insertionSort (fun x y => x ≤ y) fpr.flatten ∧
      ∃ s, sumInterp d fpr tpr = some s ∧
        m = s.map (fun t => t / (tpr.length : ℚ)) ∧
        a = trapz d s / (tpr.length : ℚ) := by
  simp only [calc_macro_roc] at h
  split at h
  · exact absurd h (by simp)
  case _ s hs =>
    split at h
    · exact absurd h (by simp)
    case _ a0 ha0 =>
      simp only [Option.some.injEq, Prod.mk.injEq] at h
      obtain ⟨hd, hm, ha⟩ := h
      have hsorted : List.Sorted (fun x y => x ≤ y)
          (List.insertionSort (fun x y => x ≤ y) fpr.flatten) :=
        List.sorted_insertionSort _ _
      have hchain : List.Chain' (fun x y => x ≤ y)
          (List.insertionSort (fun x y => x ≤ y) fpr.flatten) :=
        List.chain'_iff_pairwise.2 hsorted
      have ha0' : a0 = trapz (List.insertionSort (fun x y => x ≤ y)
          fpr.flatten) s := sk_auc_of_chain _ _ _ hchain ha0
      subst hd
      exact ⟨rfl, s, hs, hm.symm, by rw [← ha, ha0']⟩

/-- A successful interpolation sum is the pointwise sum, over the paired
curves, of the interpolated TPR values. -/
lemma sumInterp_some (xs : List ℚ) (fpr tpr : List (List ℚ)) (s : List ℚ)
    (h : sumInterp xs fpr tpr = some s) :
    s = xs.map fun x =>
      ((fpr.zip tpr).map fun p => interpCore x (p.1.zip p.2)).sum := by
  induction tpr generalizing fpr s with
  | nil =>
    simp only [sumInterp, Option.some.injEq] at h
    simp [← h]
  | cons fp tprs ih =>
    cases fpr with
    | nil => exact absurd h (by simp [sumInterp])
    | cons xp fprs =>
      simp only [sumInterp] at h
      cases hcur : npInterp xs xp fp with
      | none => rw [hcur] at h; exact absurd h (by simp)
      | some cur =>
        cases hrest : sumInterp xs fprs tprs with
        | none => rw [hcur, hrest] at h; exact absurd h (by simp)
        | some rest =>
          rw [hcur, hrest] at h
          simp only [Option.some.injEq] at h
          have hc := npInterp_some xs xp fp cur hcur
          have hr := ih fprs rest hrest
          subst hc hr
          rw [← h]
          unfold interpList
          rw [List.zipWith_map, List.zipWith_same]
          simp [List.sum_cons]

/-- Trapezoidal integration is homogeneous: dividing every ordinate by `c`
divides the area by `c`. -/
theorem trapz_map_div (c : ℚ) : ∀ xs ys : List ℚ,
    trapz xs (ys.map fun t => t / c) = trapz xs ys / c
  | x0 :: x1 :: xs, y0 :: y1 :: ys => by
    have ih : trapz (x1 :: xs) (y1 / c :: ys.map fun t => t / c) =
        trapz (x1 :: xs) (y1 :: ys) / c := trapz_map_div c (x1 :: xs) (y1 :: ys)
    simp only [List.map_cons, trapz, ih]
    rw [div_add_div_same, ← mul_div_assoc, div_div, mul_comm c 2, ← div_div,
      div_add_div_same]
  | [], ys => by cases ys <;> simp [trapz]
  | [x], ys => by cases ys <;> simp [trapz]
  | x0 :: x1 :: xs, [] => by simp [trapz]
  | x0 :: x1 :: xs, [y] => by simp [trapz]

/-! ## Claims about the aggregator's domain, mean and AUC -/

/-- C1 (corrected, counterexample): the shared x-domain is NOT a
duplicate-free set union.  For two identical curves the returned domain is
`[0, 0, 1, 1]` — it retains duplicates, so its cardinality is not the number
of distinct FPR values. -/
theorem calc_macro_roc_domain_keeps_duplicates :
    calc_macro_roc [[0, 1], [0, 1]] [[0, 1], [0, 1]] =
      some ([0, 0, 1, 1], [0, 0, 1, 1], 1 / 2) ∧
      ¬ ([0, 0, 1, 1] : List ℚ).Nodup := by
  constructor
  · norm_num [calc_macro_roc, sumInterp, npInterp, interpList, interpCore,
      interpGo, sk_auc, trapz, List.insertionSort, List.orderedInsert,
      List.zipWith, List.cons_ne_nil]
  · norm_num [List.nodup_cons]

/-- C1 (amended): for every input on which `calc_macro_roc` succeeds, the
returned x-domain is the ascending-sorted concatenation of all FPR values of
all input curves, duplicates retained: it is sorted, it is a permutation of
the concatenation, and its cardinality is the total number of FPR values. -/
theorem calc_macro_roc_domain_sorted_concat (fpr tpr : List (List ℚ))
    (r : List ℚ × List ℚ × ℚ) (h : calc_macro_roc fpr tpr = some r) :
    r.1.Sorted (fun x y => x ≤ y) ∧ List.Perm r.1 fpr.flatten ∧
      r.1.length = (fpr.map List.length).sum := by
  obtain ⟨d, m, a⟩ := r
  obtain ⟨hd, -⟩ := calc_macro_roc_inv fpr tpr d m a h
  subst hd
  refine ⟨List.sorted_insertionSort _ _, List.perm_insertionSort _ _, ?_⟩
  rw [(List.perm_insertionSort _ _).length_eq, List.length_flatten]

/-- Witness for the amended C1 at a concrete successful call. -/
theorem calc_macro_roc_domain_sorted_concat_witness :
    (([0, 1] : List ℚ).Sorted (fun x y => x ≤ y)) ∧
      List.Perm ([0, 1] : List ℚ) ([[0, 1]] : List (List ℚ)).flatten ∧
      ([0, 1] : List ℚ).length =
        (([[0, 1]] : List (List ℚ)).map List.length).sum :=
  calc_macro_roc_domain_sorted_concat [[0, 1]] [[0, 1]]
    ([0, 1], [0, 1], 1 / 2)
    (by norm_num [calc_macro_roc, sumInterp, npInterp, interpList, interpCore,
      interpGo, sk_auc, trapz, List.insertionSort, List.orderedInsert,
      List.zipWith, List.cons_ne_nil])

/-- C2 (corrected, counterexample): the returned AUC is NOT the trapezoidal
integral of (domain, macro TPR) divided by the fold count.  For two identical
diagonal curves the returned AUC is `1/2`, while that formula gives
`(1/2) / 2 = 1/4`. -/
theorem calc_macro_roc_auc_not_redivided :
    calc_macro_roc [[0, 1], [0, 1]] [[0, 1], [0, 1]] =
      some ([0, 0, 1, 1], [0, 0, 1, 1], 1 / 2) ∧
      (1 / 2 : ℚ) ≠ trapz [0, 0, 1, 1] [0, 0, 1, 1] / 2 := by
  constructor
  · norm_num [calc_macro_roc, sumInterp, npInterp, interpList, interpCore,
      interpGo, sk_auc, trapz, List.insertionSort, List.orderedInsert,
      List.zipWith, List.cons_ne_nil]
  · norm_num [trapz]

/-- C2 (amended): the returned macro TPR vector is the pointwise average
(sum divided by fold count) of the per-curve TPR vectors interpolated onto
the shared domain, and the returned AUC is the trapezoidal integral of
(domain, macro TPR) — with no further division by the fold count
(equivalently, the integral of the summed vector divided by the count). -/
theorem calc_macro_roc_mean_avg_auc (fpr tpr : List (List ℚ))
    (d m : List ℚ) (a : ℚ) (h : calc_macro_roc fpr tpr = some (d, m, a)) :
    m = d.map (fun x =>
      ((fpr.zip tpr).map fun p => interpCore x (p.1.zip p.2)).sum /
        (tpr.length : ℚ)) ∧
    a = trapz d m := by
  obtain ⟨-, s, hs, hm, ha⟩ := calc_macro_roc_inv fpr tpr d m a h
  have hsum := sumInterp_some d fpr tpr s hs
  constructor
  · rw [hm, hsum, List.map_map]
    rfl
  · rw [hm, trapz_map_div]
    exact ha

/-- Witness for the amended C2 at a concrete successful call. -/
theorem calc_macro_roc_mean_avg_auc_witness :
    (([0, 1] : List ℚ) = ([0, 1] : List ℚ).map (fun x =>
      ((([[0, 1]] : List (List ℚ)).zip [[0, 1]]).map
        fun p => interpCore x (p.1.zip p.2)).sum / ((1 : Nat) : ℚ))) ∧
      (1 / 2 : ℚ) = trapz [0, 1] [0, 1] :=
  calc_macro_roc_mean_avg_auc [[0, 1]] [[0, 1]] [0, 1] [0, 1] (1 / 2)
    (by norm_num [calc_macro_roc, sumInterp, npInterp, interpList, interpCore,
      interpGo, sk_auc, trapz, List.insertionSort, List.orderedInsert,
      List.zipWith, List.cons_ne_nil])

/-- C4 (confirmed): aggregating a perfect classifier's fold
(FPR `[0,0,1]`, TPR `[0,1,1]`) with a random classifier's fold
(FPR `[0,1]`, TPR `[0,1]`) returns an AUC of exactly `3/4`. -/
theorem calc_macro_roc_perfect_plus_random :
    (calc_macro_roc [[0, 0, 1], [0, 1]] [[0, 1, 1], [0, 1]]).map
      (fun r => r.2.2) = some (3 / 4) := by
  norm_num [calc_macro_roc, sumInterp, npInterp, interpList, interpCore,
    interpGo, sk_auc, trapz, List.insertionSort, List.orderedInsert,
    List.zipWith, List.cons_ne_nil]

/-- C9 (confirmed): on the empty sequence of curves `calc_macro_roc` raises
(no result is defined); with no FPR values the shared domain is empty and
`sklearn.metrics.auc` rejects it, so at least one input curve is an implicit
precondition. -/
theorem calc_macro_roc_empty_fails (tpr : List (List ℚ)) :
    calc_macro_roc [] tpr = none := by
  cases tpr with
  | nil => norm_num [calc_macro_roc, sumInterp, sk_auc]
  | cons fp tprs => norm_num [calc_macro_roc, sumInterp]

/-! ## The single-curve case (interpolation at a curve's own knots) -/

/-- In a strictly sorted list the head is a lower bound of every entry. -/
lemma sorted_lt_head_le (a : ℚ) (l : List ℚ)
    (hs : List.Sorted (fun x y => x < y) (a :: l)) (i : Nat)
    (hi : i < (a :: l).length) : a ≤ (a :: l).get ⟨i, hi⟩ := by
  cases i with
  | zero => exact le_refl a
  | succ j =>
    have hj : j < l.length := by simpa using hi
    have hmem : l.get ⟨j, hj⟩ ∈ l := l.get_mem _ _
    exact ((List.pairwise_cons.1 hs).1 _ hmem).le

/-- Passing over a knot strictly below all later knots: with both knot
abscissas at or below `x`, numpy's scan moves on to the later knot. -/
lemma interpCore_cons_of_le (x x0 y0 x1 y1 : ℚ) (r : List (ℚ × ℚ))
    (h0 : x0 ≤ x) (h1 : x1 ≤ x) :
    interpCore x ((x0, y0) :: (x1, y1) :: r) = interpCore x ((x1, y1) :: r) := by
  show (if x < x0 then y0 else interpGo x (x0, y0) ((x1, y1) :: r)) =
    (if x < x1 then y1 else interpGo x (x1, y1) r)
  rw [if_neg (not_lt.2 h0), if_neg (not_lt.2 h1)]
  show (if x1 ≤ x then interpGo x (x1, y1) r
    else if x = x0 then y0 else y0 + (y1 - y0) * (x - x0) / (x1 - x0)) =
    interpGo x (x1, y1) r
  rw [if_pos h1]

/-- An exact hit on the head knot, all later knots strictly above it,
returns the head ordinate. -/
lemma interpCore_head_hit (x0 y0 : ℚ) : ∀ (r : List (ℚ × ℚ)),
    (∀ p ∈ r, x0 < p.1) → interpCore x0 ((x0, y0) :: r) = y0
  | [], _ => by
    show (if x0 < x0 then y0 else interpGo x0 (x0, y0) []) = y0
    rw [if_neg (lt_irrefl x0)]
    rfl
  | (x1, y1) :: r, h => by
    have hx01 : x0 < x1 := h (x1, y1) (by simp)
    show (if x0 < x0 then y0 else interpGo x0 (x0, y0) ((x1, y1) :: r)) = y0
    rw [if_neg (lt_irrefl x0)]
    show (if x1 ≤ x0 then interpGo x0 (x1, y1) r
      else if x0 = x0 then y0 else y0 + (y1 - y0) * (x0 - x0) / (x1 - x0)) = y0
    rw [if_neg (not_le.2 hx01), if_pos rfl]

/-- Over a strictly increasing knot list, numpy interpolation evaluated at
the `i`-th knot abscissa returns the `i`-th ordinate. -/
lemma interpCore_self_get (xp : List ℚ) :
    ∀ (fp : List ℚ), List.Sorted (fun x y => x < y) xp →
      xp.length = fp.length →
      ∀ (i : Nat) (hi : i < xp.length) (hi' : i < fp.length),
      interpCore (xp.get ⟨i, hi⟩) (xp.zip fp) = fp.get ⟨i, hi'⟩ := by
  induction xp with
  | nil => intro fp hs hl i hi hi'; exact absurd hi (by simp)
  | cons x0 xps ih =>
    intro fp hs hl i hi hi'
    cases fp with
    | nil => exact absurd hl (by simp)
    | cons y0 yps =>
      cases i with
      | zero =>
        show interpCore x0 ((x0, y0) :: xps.zip yps) = y0
        refine interpCore_head_hit x0 y0 _ (fun p hp => ?_)
        have hp1 : p.1 ∈ xps := (List.of_mem_zip hp).1
        exact (List.pairwise_cons.1 hs).1 _ hp1
      | succ j =>
        have hj : j < xps.length := by simpa using hi
        have hj' : j < yps.length := by simpa using hi'
        cases xps with
        | nil => exact absurd hj (by simp)
        | cons x1 xps' =>
          cases yps with
          | nil => exact absurd hj' (by simp)
          | cons y1 yps' =>
            have hstail : List.Sorted (fun x y => x < y) (x1 :: xps') :=
              hs.of_cons
            have hx1le : x1 ≤ (x1 :: xps').get ⟨j, hj⟩ :=
              sorted_lt_head_le x1 xps' hstail j hj
            have hx01 : x0 < x1 := (List.pairwise_cons.1 hs).1 x1 (by simp)
            have hx0le : x0 ≤ (x1 :: xps').get ⟨j, hj⟩ :=
              (lt_of_lt_of_le hx01 hx1le).le
            show interpCore ((x1 :: xps').get ⟨j, hj⟩)
              ((x0, y0) :: (x1, y1) :: xps'.zip yps') =
              (y1 :: yps').get ⟨j, hj'⟩
            rw [interpCore_cons_of_le _ _ _ _ _ _ hx0le hx1le]
            exact ih (y1 :: yps') hstail (by simpa using hl) j hj hj'

/-- Over a strictly increasing knot list, interpolating a curve onto its own
abscissas is the identity on the ordinate list. -/
lemma interpList_self (xp fp : List ℚ)
    (hs : List.Sorted (fun x y => x < y) xp) (hl : xp.length = fp.length) :
    interpList xp xp fp = fp := by
  apply List.ext_get
  · simp [interpList, hl]
  · intro i h1 h2
    have hi : i < xp.length := by simpa [interpList] using h1
    have hkey := interpCore_self_get xp fp hs hl i hi h2
    simpa [interpList] using hkey

/-- Adding a zero vector of matching length is the identity. -/
lemma zipWith_add_zeros : ∀ (l : List ℚ) (xs : List ℚ),
    l.length = xs.length →
    List.zipWith (fun a b => a + b) l (xs.map fun _ => (0 : ℚ)) = l
  | [], _, _ => by simp
  | a :: l, [], h => by simp at h
  | a :: l, x :: xs, h => by
    simp only [List.map_cons, List.zipWith_cons_cons, add_zero]
    rw [zipWith_add_zeros l xs (by simpa using h)]

/-- C3 (corrected, counterexample): for the single ROC curve with
non-decreasing FPR `[0,0,1]` and TPR `[0,1,1]`, `calc_macro_roc` does NOT
return the TPR sequence unchanged: interpolation at the duplicated FPR value
`0` yields the last duplicate's TPR, so the returned TPR is `[1,1,1]`. -/
theorem calc_macro_roc_single_dup_changes_tpr :
    calc_macro_roc [[0, 0, 1]] [[0, 1, 1]] = some ([0, 0, 1], [1, 1, 1], 1) ∧
      ([1, 1, 1] : List ℚ) ≠ [0, 1, 1] ∧
      List.Sorted (fun x y => x ≤ y) ([0, 0, 1] : List ℚ) := by
  refine ⟨?_, by norm_num, by norm_num [List.sorted_cons]⟩
  norm_num [calc_macro_roc, sumInterp, npInterp, interpList, interpCore,
    interpGo, sk_auc, trapz, List.insertionSort, List.orderedInsert,
    List.zipWith, List.cons_ne_nil]

/-- C3 (amended): for a single ROC curve whose FPR values are strictly
increasing (no duplicated abscissas) with index-aligned TPR values and at
least two points (required by `sklearn.metrics.auc`), `calc_macro_roc` on the
one-element sequence returns the curve's FPR and TPR sequences unchanged and
an AUC equal to direct trapezoidal integration of the original points. -/
theorem calc_macro_roc_single_strict (xp fp : List ℚ)
    (hs : List.Sorted (fun x y => x < y) xp) (hl : xp.length = fp.length)
    (h2 : 2 ≤ xp.length) :
    calc_macro_roc [xp] [fp] = some (xp, fp, trapz xp fp) := by
  have hne : xp ≠ [] := by rintro rfl; simp at h2
  have hsle : List.Sorted (fun x y => x ≤ y) xp :=
    hs.imp (fun h => le_of_lt h)
  have hsort : List.insertionSort (fun a b => a ≤ b)
      ([xp] : List (List ℚ)).flatten = xp := by
    rw [show ([xp] : List (List ℚ)).flatten = xp by simp]
    exact hsle.insertionSort_eq
  have hnp : npInterp xp xp fp = some fp := by
    rw [npInterp, if_pos ⟨hl, hne⟩, interpList_self xp fp hs hl]
  have hsum : sumInterp xp [xp] [fp] = some fp := by
    simp only [sumInterp, hnp]
    rw [zipWith_add_zeros fp xp hl.symm]
  have hauc : sk_auc xp fp = some (trapz xp fp) := by
    rw [sk_auc, if_neg (not_or.2 ⟨not_lt.2 h2, fun hne2 => hne2 hl⟩),
      if_pos (List.chain'_iff_pairwise.2 hsle)]
  simp only [calc_macro_roc, hsort, hsum, hauc]
  norm_num

/-- Witness for the amended C3 at a concrete two-point curve. -/
theorem calc_macro_roc_single_strict_witness :
    calc_macro_roc [[0, 1]] [[0, 1]] =
      some ([0, 1], [0, 1], trapz [0, 1] [0, 1]) :=
  calc_macro_roc_single_strict [0, 1] [0, 1]
    (by norm_num [List.sorted_cons]) (by norm_num) (by norm_num)

/-! ## Clamped extrapolation and degenerate curves -/

/-- When every later knot abscissa is at or below `x`, the scan runs to the
last knot and returns the final ordinate (right clamp). -/
lemma interpGo_all_le (x : ℚ) : ∀ (x0 y0 : ℚ) (r : List (ℚ × ℚ)),
    (∀ p ∈ r, p.1 ≤ x) →
    interpGo x (x0, y0) r = (r.map Prod.snd).getLastD y0
  | _, _, [], _ => rfl
  | x0, y0, (x1, y1) :: r, h => by
    have h1 : x1 ≤ x := h (x1, y1) (by simp)
    show (if x1 ≤ x then interpGo x (x1, y1) r
      else if x = x0 then y0 else y0 + (y1 - y0) * (x - x0) / (x1 - x0)) =
      (((x1, y1) :: r).map Prod.snd).getLastD y0
    rw [if_pos h1,
      interpGo_all_le x x1 y1 r (fun p hp => h p (List.mem_cons_of_mem _ hp)),
      List.map_cons, List.getLastD_cons]

/-- C7 (corrected, counterexample): interpolation DOES fail on a degenerate
curve with zero points — `np.interp` raises `ValueError` on an empty
sample-point array, so `calc_macro_roc` fails when any input curve is empty
(a curve with fewer than 2 points is not always safe, contrary to the
claim). -/
theorem calc_macro_roc_empty_curve_fails :
    calc_macro_roc [[0, 1], []] [[0, 1], []] = none ∧
      npInterp [0, 1] [] [] = none := by
  constructor
  · norm_num [calc_macro_roc, sumInterp, npInterp, List.insertionSort,
      List.orderedInsert, List.cons_ne_nil]
  · norm_num [npInterp]

/-- C7 (amended): for a non-empty curve with index-aligned ordinates, numpy
interpolation clamps to the endpoint ordinates outside the curve's own
abscissa range — below the first knot it returns the first TPR, above every
knot it returns the last TPR — and for a degenerate ONE-point curve it never
fails and returns the single TPR value at every evaluation point. -/
theorem interp_clamp (xp fp : List ℚ) (x : ℚ) (hl : xp.length = fp.length)
    (hne : xp ≠ []) :
    (x < xp.headD 0 → interpCore x (xp.zip fp) = fp.headD 0) ∧
    ((∀ v ∈ xp, v < x) → interpCore x (xp.zip fp) = fp.getLastD 0) ∧
    (xp.length = 1 → interpCore x (xp.zip fp) = fp.headD 0) := by
  cases xp with
  | nil => exact absurd rfl hne
  | cons x0 xps =>
    cases fp with
    | nil => exact absurd hl (by simp)
    | cons y0 yps =>
      refine ⟨fun hlt => ?_, fun hall => ?_, fun h1 => ?_⟩
      · show (if x < x0 then y0 else interpGo x (x0, y0) (xps.zip yps)) = y0
        rw [if_pos (by simpa using hlt)]
      · have hx0 : x0 < x := hall x0 (by simp)
        have hl' : xps.length = yps.length := by simpa using hl
        show (if x < x0 then y0 else interpGo x (x0, y0) (xps.zip yps)) =
          (y0 :: yps).getLastD 0
        rw [if_neg (not_lt.2 hx0.le),
          interpGo_all_le x x0 y0 (xps.zip yps)
            (fun p hp =>
              (hall p.1 (List.mem_cons_of_mem _ (List.of_mem_zip hp).1)).le),
          List.map_snd_zip xps yps (le_of_eq hl'.symm),
          List.getLastD_cons]
      · have hxps : xps = [] := by
          cases xps with
          | nil => rfl
          | cons a l => simp at h1
        subst hxps
        show (if x < x0 then y0 else interpGo x (x0, y0) ([].zip yps)) = y0
        by_cases hx : x < x0
        · rw [if_pos hx]
        · rw [if_neg hx]
          rfl

/-- Witness for the amended C7: the two-point diagonal curve, evaluated at
`x = 2`, above its range. -/
theorem interp_clamp_witness :
    ((2 : ℚ) < ([0, 1] : List ℚ).headD 0 →
      interpCore 2 (([0, 1] : List ℚ).zip [0, 1]) =
        ([0, 1] : List ℚ).headD 0) ∧
    ((∀ v ∈ ([0, 1] : List ℚ), v < 2) →
      interpCore 2 (([0, 1] : List ℚ).zip [0, 1]) =
        ([0, 1] : List ℚ).getLastD 0) ∧
    (([0, 1] : List ℚ).length = 1 →
      interpCore 2 (([0, 1] : List ℚ).zip [0, 1]) =
        ([0, 1] : List ℚ).headD 0) :=
  interp_clamp [0, 1] [0, 1] 2 (by norm_num) (by simp)

/-! ## Cache codec round-trip lemmas -/

lemma decInt_enc (z : ℤ) (r : List ℤ) : decInt (encInt z ++ r) = some (z, r) :=
  rfl

lemma decNat_enc (n : Nat) (r : List ℤ) :
    decNat (encNat n ++ r) = some (n, r) := by
  simp [decNat, encNat, decInt, Int.toNat_natCast, Int.natCast_nonneg]

lemma decRat_enc (q : ℚ) (r : List ℤ) :
    decRat (encRat q ++ r) = some (q, r) := by
  simp [decRat, encRat, Int.toNat_natCast, Rat.mkRat_self]

lemma decChar_enc (c : Char) (r : List ℤ) :
    decChar ([(c.toNat : ℤ)] ++ r) = some (c, r) := by
  simp [decChar, Int.toNat_natCast, Char.ofNat_toNat, Int.natCast_nonneg]

lemma decListAux_enc (dec : List ℤ → Option (α × List ℤ)) (enc : α → List ℤ)
    (henc : ∀ (a : α) (r : List ℤ), dec (enc a ++ r) = some (a, r)) :
    ∀ (l : List α) (r : List ℤ),
    decListAux dec l.length ((l.map enc).flatten ++ r) = some (l, r)
  | [], _ => rfl
  | a :: l, r => by
    have ih := decListAux_enc dec enc henc l r
    simp only [List.map_cons, List.flatten_cons, List.length_cons,
      List.append_assoc, decListAux, henc, ih]

lemma decList_enc (dec : List ℤ → Option (α × List ℤ)) (enc : α → List ℤ)
    (henc : ∀ (a : α) (r : List ℤ), dec (enc a ++ r) = some (a, r))
    (l : List α) (r : List ℤ) :
    decList dec (encList enc l ++ r) = some (l, r) := by
  have haux := decListAux_enc dec enc henc l r
  have hnat : decNat (((l.length : ℤ) :: (l.map enc).flatten) ++ r) =
      some (l.length, (l.map enc).flatten ++ r) := decNat_enc l.length _
  simp only [decList, encList, hnat, haux]

lemma decString_enc (s : String) (r : List ℤ) :
    decString (encString s ++ r) = some (s, r) := by
  have h := decList_enc decChar (fun c => [(c.toNat : ℤ)])
    (fun c r => decChar_enc c r) s.data r
  simp only [decString, encString, h]

lemma decPairIS_enc (p : ℤ × String) (r : List ℤ) :
    (fun l0 =>
      match decInt l0 with
      | none => none
      | some (z, l1) =>
        match decString l1 with
        | none => none
        | some (s, l2) => some ((z, s), l2))
    ((encInt p.1 ++ encString p.2) ++ r) = some (p, r) := by
  simp only [List.append_assoc, decInt_enc, decString_enc]

lemma decFold_enc (f : FoldResult) (r : List ℤ) :
    decFold (encFold f ++ r) = some (f, r) := by
  have h1 := decList_enc
    (fun l0 =>
      match decInt l0 with
      | none => none
      | some (z, l1) =>
        match decString l1 with
        | none => none
        | some (s, l2) => some ((z, s), l2))
    (fun p : ℤ × String => encInt p.1 ++ encString p.2)
    decPairIS_enc f.indata_test
    (encList encInt f.y ++ (encList encRat f.probs ++ r))
  have h2 := decList_enc decInt encInt (fun z r => decInt_enc z r) f.y
    (encList encRat f.probs ++ r)
  have h3 := decList_enc decRat encRat (fun q r => decRat_enc q r) f.probs r
  simp only [decFold, encFold, List.append_assoc, h1, h2, h3]

lemma decOpt_enc (dec : List ℤ → Option (α × List ℤ)) (enc : α → List ℤ)
    (henc : ∀ (a : α) (r : List ℤ), dec (enc a ++ r) = some (a, r))
    (o : Option α) (r : List ℤ) :
    decOpt dec (encOpt enc o ++ r) = some (o, r) := by
  cases o with
  | none => rfl
  | some a => simp [decOpt, encOpt, henc]

/-- C6 (confirmed): storing any Combined Results value — including one where
a model's entry is the absent marker — and loading it back returns the same
value: the serialized artifact round-trips exactly. -/
theorem store_load_roundtrip (X : CombinedResults) : load (store X) = some X := by
  have hfold : ∀ (f : FoldResult) (r : List ℤ),
      decFold (encFold f ++ r) = some (f, r) := decFold_enc
  have hb := decOpt_enc (decList decFold) (encList encFold)
    (fun l r => decList_enc decFold encFold hfold l r) X.bigram
    (encOpt (encList encFold) X.lstm)
  have hl := decOpt_enc (decList decFold) (encList encFold)
    (fun l r => decList_enc decFold encFold hfold l r) X.lstm []
  have hl' : decOpt (decList decFold) (encOpt (encList encFold) X.lstm) =
      some (X.lstm, []) := by
    simpa using hl
  simp only [load, store, hb, hl']

/-! ## Pipeline behaviour with a disabled model, cached runs, and toggles -/

/-- C5 (code bug): with only the bigram model enabled (the `lstm` entry is
`None`), the pipeline does NOT complete.  `write_results_to_csv` evaluates
`len(None)` and raises `TypeError` (completion flag `false`, and only the
bigram fold's CSV file is written), and the figure stage would reference the
unbound `lstm_binary_fpr`, raising `NameError` (`none`), instead of skipping
the absent model's curve. -/
theorem bigram_only_pipeline_errors :
    write_results_to_csv [("bigram", some [demoFold]), ("lstm", none)] =
      ([⟨"bigram-0-resultset.csv", foldRows demoFold⟩], false) ∧
      create_figs_report demoRoc (some [demoFold]) none = none := by
  constructor
  · rfl
  · have hlstm : guardedRocBlock demoRoc none = some none := by
      simp [guardedRocBlock, truthy]
    cases hb : guardedRocBlock demoRoc (some [demoFold]) with
    | none => simp [create_figs_report, hb]
    | some bc => simp only [create_figs_report, hb, hlstm]

/-- C8 (confirmed): when the cache artifact exists and the force flag is
false, the output of `create_figs` is determined solely by the cached bytes —
the `isbigram`, `islstm` and `nfolds` arguments (and hence the experiment
runner) are never consulted, so two runs over the same cache state agree for
every choice of those arguments. -/
theorem create_figs_cached_ignores_args (b1 l1 : Bool) (n1 : Nat)
    (b2 l2 : Bool) (n2 : Nat) (bytes : List ℤ)
    (runner : Bool → Bool → Nat → CombinedResults)
    (roc : FoldResult → List ℚ × List ℚ) :
    create_figs b1 l1 n1 false (some bytes) runner roc =
      create_figs b2 l2 n2 false (some bytes) runner roc := rfl

/-- C10 (confirmed): the environment toggles are resolved by Python
truthiness of the string value: any non-empty string — including `"0"` and
`"False"` — enables the model (or forces regeneration), the empty string
disables, and an unset variable falls back to the default (`True` for
`BIGRAM`/`LSTM`, `False` for `FORCE`). -/
theorem env_toggles_nonempty_truthy (s : String) (h : s ≠ "") :
    resolveToggles (some s) (some s) (some s) = (true, true, true) ∧
      resolveToggles (some "") (some "") (some "") = (false, false, false) ∧
      resolveToggles none none none = (true, true, false) := by
  refine ⟨?_, rfl, rfl⟩
  have hne : s.isEmpty = false := by
    rw [Bool.eq_false_iff]
    intro hemp
    exact h ((String.isEmpty_iff s).1 hemp)
  simp [resolveToggles, envToggle, hne]

/-- Witness for C10 at the string value from the claim: setting a toggle to
the literal string zero still resolves to true. -/
theorem env_toggles_nonempty_truthy_witness :
    resolveToggles (some "0") (some "0") (some "0") = (true, true, true) ∧
      resolveToggles (some "") (some "") (some "") = (false, false, false) ∧
      resolveToggles none none none = (true, true, false) :=
  env_toggles_nonempty_truthy "0" (by simp)

end DgaPredict
